import Mathlib

/-!
Verification development for the observability / secret-redaction core of a
merchant-facing embedded commerce application.

The embedded source files are:
  - app/utils/redact.server.ts   (pure redaction helpers: redactForLogs,
    redactString, redactLogMessage, sanitizeErrorMessage)
  - app/utils/logger.server.ts   (structured logger: emit, logEvent,
    withEventLogging, and its own copies of the scrubbing helpers)
  - app/utils/request-id.server.ts (correlation ids: sanitizeInboundRequestId,
    getOrCreateRequestId)

The JavaScript regular expressions used by the sources are embedded as an
explicit leftmost-match, greedy-with-backtracking matcher over lists of
characters (`RItem` / `matchSeq` / `replaceAll`), which mirrors the semantics
of `String.prototype.replace` with the `g` flag.  Anchored "test" regexes
whose character classes exclude their own delimiters (the UUID, JWT-shape,
long-opaque and token-prefix patterns) are embedded by their equivalent
structural characterisations, noted at each definition.

All functions take explicit fuel so that they are structurally recursive and
evaluate inside the kernel; the fuel supplied by each wrapper strictly
dominates the relevant decreasing measure, as noted at each wrapper.
-/

namespace AstraChat

/-! ## Character classes (JavaScript semantics, code points) -/

/-- JavaScript whitespace class `\s`: tab, LF, VT, FF, CR, space, NBSP and the
Unicode space separators, line/paragraph separators and BOM. -/
def isJsWs (c : Char) : Bool :=
  let n := c.toNat
  n == 9 || n == 10 || n == 11 || n == 12 || n == 13 || n == 32 ||
  n == 160 || n == 0x1680 || (0x2000 ≤ n && n ≤ 0x200a) ||
  n == 0x2028 || n == 0x2029 || n == 0x202f || n == 0x205f ||
  n == 0x3000 || n == 0xfeff

/-- JavaScript digit class `\d` = `[0-9]`. -/
def isJsDigit (c : Char) : Bool :=
  48 ≤ c.toNat && c.toNat ≤ 57

/-- ASCII letter `[A-Za-z]`. -/
def isAsciiLetter (c : Char) : Bool :=
  (65 ≤ c.toNat && c.toNat ≤ 90) || (97 ≤ c.toNat && c.toNat ≤ 122)

/-- JavaScript word character `\w` = `[A-Za-z0-9_]`, used by `\b`. -/
def isWordChar (c : Char) : Bool :=
  isAsciiLetter c || isJsDigit c || c.toNat == 95

/-- Hexadecimal digit `[0-9a-fA-F]` (the UUID pattern's class, `i` flag folded in). -/
def isHexDigit (c : Char) : Bool :=
  (48 ≤ c.toNat && c.toNat ≤ 57) || (97 ≤ c.toNat && c.toNat ≤ 102) ||
  (65 ≤ c.toNat && c.toNat ≤ 70)

/-- Base64url-ish segment class `[A-Za-z0-9_-]` of `JWT_RE`. -/
def isB64u (c : Char) : Bool :=
  isAsciiLetter c || isJsDigit c || c.toNat == 95 || c.toNat == 45

/-- Class `[A-Za-z0-9+/=_-]` of `LONG_OPAQUE_RE`. -/
def isOpaqueChar (c : Char) : Bool :=
  isAsciiLetter c || isJsDigit c || c.toNat == 43 || c.toNat == 47 ||
  c.toNat == 61 || c.toNat == 95 || c.toNat == 45

/-- ASCII lower-casing, the effect of `String.prototype.toLowerCase` and of the
`i` regex flag on the ASCII keys and patterns appearing in the sources. -/
def asciiLower (c : Char) : Char :=
  if 65 ≤ c.toNat && c.toNat ≤ 90 then Char.ofNat (c.toNat + 32) else c

/-- ASCII upper-casing (used to fold the `i` flag into literal comparisons). -/
def asciiUpper (c : Char) : Char :=
  if 97 ≤ c.toNat && c.toNat ≤ 122 then Char.ofNat (c.toNat - 32) else c

/-- Case-insensitive match of an input character `x` against an ASCII pattern
literal `c`, as under the regex `i` flag. -/
def ciEq (x c : Char) : Bool :=
  x == c || x == asciiUpper c

/-- `String.prototype.toLowerCase` restricted to the ASCII keys the sources
compare (`k.toLowerCase()`). -/
def jsToLower (s : String) : String :=
  String.mk (s.toList.map asciiLower)

/-! ## A small backtracking regex matcher

`RItem` is one item of a regex: a case-insensitive literal, a single
character-class occurrence, an optional class occurrence (`?`, greedy), a
class repetition with a minimum count (`{min,}` / `+`, greedy with
backtracking), or a word-boundary assertion `\b`.  `matchSeq` returns, on
success, the list of lengths consumed by each item, trying longer
repetitions first exactly as a backtracking engine does. -/

inductive RItem where
  | litCI (c : Char)
  | cls (p : Char → Bool)
  | opt (p : Char → Bool)
  | rep (min : Nat) (p : Char → Bool)
  | bnd
  deriving Inhabited

/-- Prepend one consumed character to the length accounting of the head item. -/
def bumpHead : Option (List Nat) → Option (List Nat)
  | some (n :: t) => some ((n + 1) :: t)
  | _ => none

/-- Match a sequence of regex items against a prefix of `s`; `prev` is the
character immediately before the match start (for `\b`).  Returns the lengths
consumed per item.  Every recursive call strictly decreases
`s.length + items.length`, so `fuel ≥ s.length + items.length + 1` makes the
fuel case unreachable. -/
def matchSeq : Nat → List RItem → List Char → Option Char → Option (List Nat)
  | 0, _, _, _ => none
  | _ + 1, [], _, _ => some []
  | fuel + 1, RItem.litCI c :: rest, s, _ =>
    match s with
    | [] => none
    | x :: xs => if ciEq x c then (matchSeq fuel rest xs (some x)).map (1 :: ·) else none
  | fuel + 1, RItem.cls p :: rest, s, _ =>
    match s with
    | [] => none
    | x :: xs => if p x then (matchSeq fuel rest xs (some x)).map (1 :: ·) else none
  | fuel + 1, RItem.opt p :: rest, s, prev =>
    match s with
    | [] => (matchSeq fuel rest [] prev).map (0 :: ·)
    | x :: xs =>
      if p x then
        match matchSeq fuel rest xs (some x) with
        | some lens => some (1 :: lens)
        | none => (matchSeq fuel rest s prev).map (0 :: ·)
      else (matchSeq fuel rest s prev).map (0 :: ·)
  | fuel + 1, RItem.rep (m + 1) p :: rest, s, _ =>
    match s with
    | [] => none
    | x :: xs => if p x then bumpHead (matchSeq fuel (RItem.rep m p :: rest) xs (some x)) else none
  | fuel + 1, RItem.rep 0 p :: rest, s, prev =>
    match s with
    | [] => (matchSeq fuel rest [] prev).map (0 :: ·)
    | x :: xs =>
      if p x then
        match bumpHead (matchSeq fuel (RItem.rep 0 p :: rest) xs (some x)) with
        | some lens => some lens
        | none => (matchSeq fuel rest s prev).map (0 :: ·)
      else (matchSeq fuel rest s prev).map (0 :: ·)
  | fuel + 1, RItem.bnd :: rest, s, prev =>
    let pw := match prev with | some c => isWordChar c | none => false
    let nw := match s with | x :: _ => isWordChar x | [] => false
    if pw != nw then matchSeq fuel rest s prev else none

/-- A replace pattern: the items, and how many leading items form the kept
capture group (`$1`); the remainder of the match is replaced by the marker. -/
structure RPat where
  items : List RItem
  keep : Nat

def sumL (l : List Nat) : Nat := l.foldl (· + ·) 0

/-- The redaction marker, as characters. -/
def redactedChars : List Char := "[REDACTED]".toList

/-- One pass of `String.prototype.replace(re, "$1[REDACTED]")` with the `g`
flag: scan left to right, at each position attempt a match; on success emit
the kept capture group followed by the marker and resume after the match, as
the `lastIndex` semantics of a global replace does.  `fuel ≥ s.length + 1`
makes the fuel case unreachable (each step consumes at least one character). -/
def scanGo (pat : RPat) : Nat → Option Char → List Char → List Char
  | 0, _, s => s
  | _ + 1, _, [] => []
  | fuel + 1, prev, x :: xs =>
    match matchSeq ((x :: xs).length + pat.items.length + 1) pat.items (x :: xs) prev with
    | none => x :: scanGo pat fuel (some x) xs
    | some lens =>
      let total := sumL lens
      if total == 0 then x :: scanGo pat fuel (some x) xs
      else
        let kept := sumL (lens.take pat.keep)
        (x :: xs).take kept ++ redactedChars ++
          scanGo pat fuel ((x :: xs).get? (total - 1)) ((x :: xs).drop total)

def replaceAll (pat : RPat) (s : List Char) : List Char :=
  scanGo pat (s.length + 1) none s

/-- Case-insensitive substring test: does `needle` (given lower-case) occur in
`hay`?  This is the `test` of an unanchored alternation-of-literals regex with
the `i` flag. -/
def containsLower : List Char → List Char → Bool
  | needle, [] => needle.isEmpty
  | needle, x :: xs =>
    needle.isPrefixOf (List.map asciiLower (x :: xs)) || containsLower needle xs

def containsCI (needle : String) (hay : String) : Bool :=
  containsLower needle.toList hay.toList

/-- Split a character list at every occurrence of `c` (like
`String.prototype.split`, keeping empty parts). -/
def splitOnChar (c : Char) : List Char → List (List Char)
  | [] => [[]]
  | x :: xs =>
    let r := splitOnChar c xs
    if x == c then [] :: r
    else
      match r with
      | h :: t => (x :: h) :: t
      | [] => [[x]]

/-! ## The scrub patterns shared by redact.server.ts and logger.server.ts

Both source files define the same eight keyword replaces (in `scrubString` /
`scrubCommonSubstrings`); redact.server.ts appends the email and phone
replaces.  Classes:

  `[^\s,]`   value of the bearer/authorization rules
  `[:\s]`    authorization separator
  `[:\s=]`   token/access/refresh/hmac separator
  `[^\s,&]`  token/access/refresh/hmac value
  `[^&\s]`   code=/state= value
-/

def notWsComma (c : Char) : Bool := !(isJsWs c || c == ',')

def sepColonWs (c : Char) : Bool := c == ':' || isJsWs c

def sepColonWsEq (c : Char) : Bool := c == ':' || isJsWs c || c == '='

def notWsCommaAmp (c : Char) : Bool := !(isJsWs c || c == ',' || c == '&')

def notAmpWs (c : Char) : Bool := !(c == '&' || isJsWs c)

def underscoreDash (c : Char) : Bool := c == '_' || c == '-'

/-- Email local-part class `[A-Z0-9._%+-]` (with `i`). -/
def emailLocalChar (c : Char) : Bool :=
  isAsciiLetter c || isJsDigit c || c == '.' || c == '_' || c == '%' ||
  c == '+' || c == '-'

/-- Email domain class `[A-Z0-9.-]` (with `i`). -/
def emailDomainChar (c : Char) : Bool :=
  isAsciiLetter c || isJsDigit c || c == '.' || c == '-'

/-- Phone body class `[\d\s().-]`. -/
def phoneBodyChar (c : Char) : Bool :=
  isJsDigit c || isJsWs c || c == '(' || c == ')' || c == '.' || c == '-'

def litsCI (s : String) : List RItem := s.toList.map RItem.litCI

/-- `/(bearer\s+)[^\s,]+/gi` replaced by `$1[REDACTED]`. -/
def patBearer : RPat :=
  { items := litsCI "bearer" ++ [RItem.rep 1 isJsWs, RItem.rep 1 notWsComma]
    keep := 7 }

/-- `/(authorization[:\s]+)[^\s,]+/gi`. -/
def patAuthorization : RPat :=
  { items := litsCI "authorization" ++ [RItem.rep 1 sepColonWs, RItem.rep 1 notWsComma]
    keep := 14 }

/-- `/(token[:\s=]+)[^\s,&]+/gi`. -/
def patToken : RPat :=
  { items := litsCI "token" ++ [RItem.rep 1 sepColonWsEq, RItem.rep 1 notWsCommaAmp]
    keep := 6 }

/-- `/(access[_-]?token[:\s=]+)[^\s,&]+/gi`. -/
def patAccessToken : RPat :=
  { items := litsCI "access" ++ [RItem.opt underscoreDash] ++ litsCI "token" ++
      [RItem.rep 1 sepColonWsEq, RItem.rep 1 notWsCommaAmp]
    keep := 13 }

/-- `/(refresh[_-]?token[:\s=]+)[^\s,&]+/gi`. -/
def patRefreshToken : RPat :=
  { items := litsCI "refresh" ++ [RItem.opt underscoreDash] ++ litsCI "token" ++
      [RItem.rep 1 sepColonWsEq, RItem.rep 1 notWsCommaAmp]
    keep := 14 }

/-- `/(hmac[:\s=]+)[^\s,&]+/gi`. -/
def patHmac : RPat :=
  { items := litsCI "hmac" ++ [RItem.rep 1 sepColonWsEq, RItem.rep 1 notWsCommaAmp]
    keep := 5 }

/-- `/(code=)[^&\s]+/gi`. -/
def patCodeEq : RPat :=
  { items := litsCI "code" ++ [RItem.litCI '='] ++ [RItem.rep 1 notAmpWs]
    keep := 5 }

/-- `/(state=)[^&\s]+/gi`. -/
def patStateEq : RPat :=
  { items := litsCI "state" ++ [RItem.litCI '='] ++ [RItem.rep 1 notAmpWs]
    keep := 6 }

/-- `/\b[A-Z0-9._%+-]+@[A-Z0-9.-]+\.[A-Z]{2,}\b/gi`, replaced whole. -/
def patEmail : RPat :=
  { items := [RItem.bnd, RItem.rep 1 emailLocalChar, RItem.litCI '@',
      RItem.rep 1 emailDomainChar, RItem.litCI '.', RItem.rep 2 isAsciiLetter,
      RItem.bnd]
    keep := 0 }

/-- `/\+?\d[\d\s().-]{7,}\d/g`, replaced whole. -/
def patPhone : RPat :=
  { items := [RItem.opt (· == '+'), RItem.cls isJsDigit, RItem.rep 7 phoneBodyChar,
      RItem.cls isJsDigit]
    keep := 0 }

/-- The eight keyword replaces, in source order (both files). -/
def scrubKeywordChars (l : List Char) : List Char :=
  replaceAll patStateEq (replaceAll patCodeEq (replaceAll patHmac
    (replaceAll patRefreshToken (replaceAll patAccessToken
      (replaceAll patToken (replaceAll patAuthorization
        (replaceAll patBearer l)))))))

/-! ## The anchored / search test regexes

Each is embedded by a structural characterisation that is equivalent to the
source regex because the repeated character classes exclude the pattern's own
delimiters (so greedy matching is deterministic). -/

/-- `JWT_RE = /^[A-Za-z0-9_-]+\.[A-Za-z0-9_-]+\.[A-Za-z0-9_-]+$/` — exactly
three dot-separated nonempty base64url segments ('.' is not in the class). -/
def jwtRe (s : String) : Bool :=
  let parts := splitOnChar '.' s.toList
  parts.length == 3 && parts.all (fun p => !p.isEmpty && p.all isB64u)

/-- `SHOPIFY_TOKEN_PREFIX_RE = /(shpat_|shpua_|shpca_|shpss_|shppa_)/i` — an
unanchored case-insensitive search for one of five literal prefixes (the two
files list them in different orders, which does not change the test). -/
def shopifyTokenRe (s : String) : Bool :=
  containsCI "shpat_" s || containsCI "shpua_" s || containsCI "shpca_" s ||
  containsCI "shpss_" s || containsCI "shppa_" s

/-- `BEARER_RE = /^Bearer\s+/i` (`BEARER_PREFIX_RE` in redact.server.ts). -/
def bearerRe (s : String) : Bool :=
  match s.toList with
  | c1 :: c2 :: c3 :: c4 :: c5 :: c6 :: c7 :: _ =>
    ciEq c1 'b' && ciEq c2 'e' && ciEq c3 'a' && ciEq c4 'r' &&
    ciEq c5 'e' && ciEq c6 'r' && isJsWs c7
  | _ => false

/-- `LONG_OPAQUE_RE = /^[A-Za-z0-9+/=_-]{32,}$/`. -/
def longOpaqueRe (s : String) : Bool :=
  32 ≤ s.toList.length && s.toList.all isOpaqueChar

/-- `UUID_RE = /^[0-9a-f]{8}-[0-9a-f]{4}-[0-9a-f]{4}-[0-9a-f]{4}-[0-9a-f]{12}$/i`
— the groups cannot contain '-', so this is: splitting at '-' yields exactly
five all-hex groups of lengths 8,4,4,4,12. -/
def uuidRe (s : String) : Bool :=
  match splitOnChar '-' s.toList with
  | [a, b, c, d, e] =>
    a.length == 8 && b.length == 4 && c.length == 4 && d.length == 4 &&
    e.length == 12 && a.all isHexDigit && b.all isHexDigit &&
    c.all isHexDigit && d.all isHexDigit && e.all isHexDigit
  | _ => false

/-- `/^[A-Za-z]{2,10}$/` — the TLD-ish test in `isLikelyJwtTripleSegment`. -/
def shortAlphaRe (l : List Char) : Bool :=
  2 ≤ l.length && l.length ≤ 10 && l.all isAsciiLetter

/-- Both files define the same `isLikelyJwtTripleSegment` heuristic. -/
def isLikelyJwtTripleSegment (s : String) : Bool :=
  if !jwtRe s then false
  else
    let parts := splitOnChar '.' s.toList
    if parts.length != 3 then false
    else
      let third := (parts.get? 2).getD []
      if shortAlphaRe third then false
      else if third.length < 12 then false
      else true

/-! ## JSON-like values and JS-object field assignment

`JsonVal` models the JSON-like metadata values the sanitizers traverse.
`bigint` models a JavaScript BigInt: it passes through the sanitizers
untouched (it is neither a string, an array, an object nor null) but
`JSON.stringify` throws a `TypeError` on it.  `obj` fields model
`Object.entries` order; `insertJs` models `out[k] = v` on a plain object
(replace in place if the key exists, else append). -/

inductive JsonVal where
  | str (s : String)
  | num (n : Int)
  | jbool (b : Bool)
  | jnull
  | bigint (n : Int)
  | arr (xs : List JsonVal)
  | obj (fs : List (String × JsonVal))
  deriving Inhabited

def insertJs (l : List (String × JsonVal)) (k : String) (v : JsonVal) :
    List (String × JsonVal) :=
  match l with
  | [] => [(k, v)]
  | (k0, v0) :: rest =>
    if k0 == k then (k0, v) :: rest else (k0, v0) :: insertJs rest k v

/-- Property read `o[k]` on a JS object (first — unique — binding). -/
def lookupJs (k : String) : List (String × JsonVal) → Option JsonVal
  | [] => none
  | (k0, v0) :: rest => if k0 == k then some v0 else lookupJs k rest

/-- The shared allowlist (`ALLOW_KEYS` in both files, identical contents). -/
def allowKeys : List String :=
  ["shop", "shopdomain", "shop_domain", "merchantid", "requestid",
   "eventtype", "outcome"]

/-- The alternatives of `BODY_KEY_RE` in redact.server.ts and of the inline
`/payload|rawBody|requestBody|body/i` in logger.server.ts — both are
unanchored case-insensitive substring alternations of the same four words. -/
def bodyKeyRe (s : String) : Bool :=
  containsCI "payload" s || containsCI "rawbody" s ||
  containsCI "requestbody" s || containsCI "body" s

/-- The alternatives both `SENSITIVE_KEY_RE` versions share, with each
`[_-]?` expanded to its three spellings.  The regexes have the shape
`^(?:.*)(alt|…)(?:.*)$` with the `i` flag, i.e. a case-insensitive
substring test for any alternative. -/
def sensitiveTermsBase : List String :=
  ["token", "access_token", "access-token", "accesstoken",
   "refresh_token", "refresh-token", "refreshtoken",
   "authorization", "bearer", "jwt",
   "id_token", "id-token", "idtoken",
   "client_secret", "client-secret", "clientsecret", "secret",
   "api_key", "api-key", "apikey",
   "private_key", "private-key", "privatekey",
   "encryption_key", "encryption-key", "encryptionkey",
   "hmac", "signature", "code", "state", "password",
   "email", "phone", "address"]

end AstraChat

namespace AstraChat.RedactSrv

/-! ## app/utils/redact.server.ts -/

open AstraChat

def REDACTED : String := "[REDACTED]"

def OMITTED : String := "[OMITTED]"

/-- `SENSITIVE_KEY_RE` of redact.server.ts: the shared terms plus `ssn` and
`dob`. -/
def sensitiveKeyRe (s : String) : Bool :=
  (sensitiveTermsBase ++ ["ssn", "dob"]).any (fun t => containsCI t s)

/-- `scrubCommonSubstrings`: the eight keyword replaces, then the email
replace, then the phone replace. -/
def scrubCommonSubstrings (s : String) : String :=
  String.mk (replaceAll patPhone (replaceAll patEmail
    (scrubKeywordChars s.toList)))

/-- `redactString`: aggressive redaction for arbitrary string values. -/
def redactString (value : String) : String :=
  let scrubbed := scrubCommonSubstrings value
  if bearerRe scrubbed then "Bearer " ++ REDACTED
  else if isLikelyJwtTripleSegment scrubbed then REDACTED
  else if shopifyTokenRe scrubbed then REDACTED
  else if uuidRe scrubbed then scrubbed
  else if longOpaqueRe scrubbed then REDACTED
  else scrubbed

/-- `redactLogMessage`: conservative redaction for the log message field. -/
def redactLogMessage (message : String) : String :=
  let scrubbed := scrubCommonSubstrings message
  if bearerRe scrubbed then "Bearer " ++ REDACTED
  else if isLikelyJwtTripleSegment scrubbed && 30 ≤ scrubbed.toList.length then REDACTED
  else if shopifyTokenRe scrubbed then REDACTED
  else scrubbed

/-- `sanitizeErrorMessage`. -/
def sanitizeErrorMessage (message : String) : String :=
  redactString message

/-- `sanitizeValue`. -/
def sanitizeValue (v : JsonVal) : JsonVal :=
  match v with
  | JsonVal.str s => JsonVal.str (redactString s)
  | v => v

def isStrVal : JsonVal → Bool
  | JsonVal.str _ => true
  | _ => false

/-- The object-entry loop of `sanitizeMeta` (redact.server.ts): iterate the
entries with a running count, stopping with a `__truncated__` marker after
100 entries; `sub` is the recursive sanitizer at `depth + 1`. -/
def sanitizeFields (sub : JsonVal → JsonVal) :
    List (String × JsonVal) → Nat → List (String × JsonVal) →
    List (String × JsonVal)
  | [], _, acc => acc
  | (k, v) :: rest, count, acc =>
    if 100 < count + 1 then insertJs acc "__truncated__" (JsonVal.jbool true)
    else if allowKeys.contains (jsToLower k) then
      sanitizeFields sub rest (count + 1) (insertJs acc k (sub v))
    else if jsToLower k == "errormessage" && isStrVal v then
      sanitizeFields sub rest (count + 1) (insertJs acc k
        (match v with
         | JsonVal.str s => JsonVal.str (sanitizeErrorMessage s)
         | v => v))
    else if bodyKeyRe (jsToLower k) then
      sanitizeFields sub rest (count + 1) (insertJs acc k (JsonVal.str OMITTED))
    else if sensitiveKeyRe (jsToLower k) then
      sanitizeFields sub rest (count + 1) (insertJs acc k (JsonVal.str REDACTED))
    else
      sanitizeFields sub rest (count + 1) (insertJs acc k (sub (sanitizeValue v)))

/-- `sanitizeMeta` (redact.server.ts).  The fuel only bounds the recursion
depth; any fuel above the depth cap of 6 (plus one) is never exhausted, and
the wrapper below passes 16. -/
def sanitizeMeta : Nat → Nat → JsonVal → JsonVal
  | 0, _, _ => JsonVal.str "[Truncated]"
  | fuel + 1, depth, input =>
    if 6 < depth then JsonVal.str "[Truncated]"
    else
      match input with
      | JsonVal.jnull => JsonVal.jnull
      | JsonVal.str s => JsonVal.str (redactString s)
      | JsonVal.arr xs =>
        JsonVal.arr ((xs.take 50).map (fun x => sanitizeMeta fuel (depth + 1) x))
      | JsonVal.obj fs =>
        JsonVal.obj (sanitizeFields (fun x => sanitizeMeta fuel (depth + 1) x) fs 0 [])
      | v => sanitizeValue v

/-- `redactForLogs`. -/
def redactForLogs (meta : JsonVal) : JsonVal :=
  sanitizeMeta 16 0 meta

end AstraChat.RedactSrv

namespace AstraChat.LoggerSrv

/-! ## app/utils/logger.server.ts -/

open AstraChat

def REDACTED : String := "[REDACTED]"

def OMITTED : String := "[OMITTED]"

/-- `SENSITIVE_KEY_RE` of logger.server.ts: the shared terms plus the four
body/payload words — and, unlike redact.server.ts, no `ssn` / `dob`. -/
def sensitiveKeyRe (s : String) : Bool :=
  (sensitiveTermsBase ++ ["payload", "rawbody", "requestbody", "body"]).any
    (fun t => containsCI t s)

/-- `scrubString` (logger.server.ts): only the eight keyword replaces — no
email or phone scrubbing, unlike `scrubCommonSubstrings`. -/
def scrubString (s : String) : String :=
  String.mk (scrubKeywordChars s.toList)

/-- `redactTokenishString`. -/
def redactTokenishString (s : String) : String :=
  if bearerRe s then "Bearer " ++ REDACTED
  else if isLikelyJwtTripleSegment s then REDACTED
  else if shopifyTokenRe s then REDACTED
  else if uuidRe s then s
  else if longOpaqueRe s then REDACTED
  else s

/-- `redactLogMessage` (logger.server.ts).  Note: this version tests the raw
`JWT_RE` shape with a whole-string length threshold and does not apply the
`isLikelyJwtTripleSegment` tie-break; it also checks `LONG_OPAQUE_RE`. -/
def redactLogMessage (message : String) : String :=
  let scrubbed := scrubString message
  if bearerRe scrubbed then "Bearer " ++ REDACTED
  else if shopifyTokenRe scrubbed then REDACTED
  else if longOpaqueRe scrubbed then REDACTED
  else if jwtRe scrubbed && 30 ≤ scrubbed.toList.length then REDACTED
  else scrubbed

/-- `sanitizeValue` (logger.server.ts). -/
def sanitizeValue (v : JsonVal) : JsonVal :=
  match v with
  | JsonVal.str s => JsonVal.str (redactTokenishString (scrubString s))
  | v => v

/-- The object-entry loop of `sanitizeMeta` (logger.server.ts): allowlisted
keys keep the key and sanitize the value; sensitive keys map to the omission
marker when the key also matches the body words, else to the redaction
marker; other entries recurse over the sanitized value. -/
def sanitizeFields (sub : JsonVal → JsonVal) :
    List (String × JsonVal) → Nat → List (String × JsonVal) →
    List (String × JsonVal)
  | [], _, acc => acc
  | (k, v) :: rest, count, acc =>
    if 100 < count + 1 then insertJs acc "__truncated__" (JsonVal.jbool true)
    else if allowKeys.contains (jsToLower k) then
      sanitizeFields sub rest (count + 1) (insertJs acc k (sub (sanitizeValue v)))
    else if sensitiveKeyRe k then
      sanitizeFields sub rest (count + 1) (insertJs acc k
        (JsonVal.str (if bodyKeyRe k then OMITTED else REDACTED)))
    else
      sanitizeFields sub rest (count + 1) (insertJs acc k (sub (sanitizeValue v)))

/-- `sanitizeMeta` (logger.server.ts).  Same fuel convention as the
redact.server.ts version. -/
def sanitizeMeta : Nat → Nat → JsonVal → JsonVal
  | 0, _, _ => JsonVal.str "[Truncated]"
  | fuel + 1, depth, input =>
    if 6 < depth then JsonVal.str "[Truncated]"
    else
      match input with
      | JsonVal.jnull => JsonVal.jnull
      | JsonVal.arr xs =>
        JsonVal.arr ((xs.take 50).map (fun x => sanitizeMeta fuel (depth + 1) x))
      | JsonVal.obj fs =>
        JsonVal.obj (sanitizeFields (fun x => sanitizeMeta fuel (depth + 1) x) fs 0 [])
      | v => sanitizeValue v

/-! ### emit -/

inductive Level where
  | debug
  | info
  | warn
  | error
  deriving DecidableEq, Inhabited

def toUpperLevel : Level → String
  | Level.debug => "DEBUG"
  | Level.info => "INFO"
  | Level.warn => "WARN"
  | Level.error => "ERROR"

/-- The `payload` object `emit` builds: the five built-in fields in literal
order, then the sanitized metadata spread over them (`...safeMeta`), which
overwrites same-named fields.  `ts` models `new Date().toISOString()` and
`rid` models `getRequestId()`. -/
def emitPayload (ts : String) (rid : Option String) (level : Level)
    (message : String) (meta : List (String × JsonVal)) :
    List (String × JsonVal) :=
  let sev := toUpperLevel level
  let safeFs :=
    match sanitizeMeta 16 0 (JsonVal.obj meta) with
    | JsonVal.obj fs => fs
    | _ => []
  let safeFs :=
    match lookupJs "errorMessage" safeFs with
    | some (JsonVal.str s) =>
      insertJs safeFs "errorMessage"
        (JsonVal.str (redactTokenishString (scrubString s)))
    | _ => safeFs
  let base : List (String × JsonVal) :=
    [("timestamp", JsonVal.str ts),
     ("level", JsonVal.str sev),
     ("severity", JsonVal.str sev),
     ("message", JsonVal.str (redactLogMessage message)),
     ("requestId", JsonVal.str (rid.getD "missing-request-id"))]
  safeFs.foldl (fun acc kv => insertJs acc kv.1 kv.2) base

/-- One character of `JSON.stringify` string escaping. -/
def escapeJsonChar (c : Char) : String :=
  if c == '"' then "\\\""
  else if c == '\\' then "\\\\"
  else if c.toNat == 10 then "\\n"
  else if c.toNat == 13 then "\\r"
  else if c.toNat == 9 then "\\t"
  else if c.toNat == 8 then "\\b"
  else if c.toNat == 12 then "\\f"
  else if c.toNat < 32 then
    "\\u00" ++ String.mk [(Nat.digitChar (c.toNat / 16)), (Nat.digitChar (c.toNat % 16))]
  else String.mk [c]

def jsonQuote (s : String) : String :=
  "\"" ++ String.join (s.toList.map escapeJsonChar) ++ "\""

/-- `JSON.stringify`, which *throws* a `TypeError` on a BigInt value — the
error side of the `Except`.  The fuel bounds nesting depth only; sanitized
metadata is at most 8 levels deep (depth cap 6 plus the wrapping payload), so
the fuel of 32 passed by `emitLine` is never exhausted. -/
def jsonStringifyF : Nat → JsonVal → Except String String
  | 0, _ => Except.error "out of fuel"
  | fuel + 1, v =>
    match v with
    | JsonVal.str s => Except.ok (jsonQuote s)
    | JsonVal.num n => Except.ok (toString n)
    | JsonVal.jbool b => Except.ok (if b then "true" else "false")
    | JsonVal.jnull => Except.ok "null"
    | JsonVal.bigint _ =>
      Except.error "TypeError: Do not know how to serialize a BigInt"
    | JsonVal.arr xs => do
      let parts ← xs.mapM (fun x => jsonStringifyF fuel x)
      return "[" ++ String.intercalate "," parts ++ "]"
    | JsonVal.obj fs => do
      let parts ← fs.mapM (fun kv => do
        let sv ← jsonStringifyF fuel kv.2
        return jsonQuote kv.1 ++ ":" ++ sv)
      return "\x7b" ++ String.intercalate "," parts ++ "\x7d"

/-- `emit` up to the console write: builds the payload and serializes it.
The source wraps nothing in try/catch, so a serialization error is the
function throwing to its caller; the `Except.ok` value is the line written
to the console stream for the level. -/
def emitLine (ts : String) (rid : Option String) (level : Level)
    (message : String) (meta : List (String × JsonVal)) :
    Except String String :=
  jsonStringifyF 32 (JsonVal.obj (emitPayload ts rid level message meta))

/-! ### logEvent and withEventLogging -/

/-- `EventMetadata` as built by the object literals inside
`withEventLogging`; `none` models an absent field. -/
structure EventMeta where
  eventType : String
  outcome : String
  shopDomain : Option String
  merchantId : Option String
  durationMs : Option Nat
  status : Option Nat
  redirect : Option Bool
  errorName : Option String
  errorMessage : Option String
  deriving DecidableEq

/-- `logEvent`: derives the level from the outcome and calls `emit`; the
result models the single emission (level, message, metadata). -/
def logEvent (message : String) (m : EventMeta) : Level × String × EventMeta :=
  ((if m.outcome == "failure" then Level.error else Level.info), message, m)

/-- A value thrown by the wrapped operation: a `Response` (with its status),
an `Error` instance (with name and message), or any other value (with its
`String(err)` rendering). -/
inductive Thrown where
  | response (status : Nat)
  | errObj (name msg : String)
  | other (asString : String)
  deriving DecidableEq

/-- Completion of the wrapped async operation: a value, or a thrown value. -/
inductive RunResult (T : Type) where
  | ok (t : T)
  | thrown (e : Thrown)

/-- The statuses of the redirect special case in `withEventLogging`. -/
def redirectStatuses : List Nat := [301, 302, 303, 307, 308]

/-- `err instanceof Error ? err.name : "Error"`. -/
def errorNameOf : Thrown → String
  | Thrown.errObj n _ => n
  | _ => "Error"

/-- `err instanceof Error ? err.message : String(err)`. -/
def errorMessageOf : Thrown → String
  | Thrown.errObj _ m => m
  | Thrown.response _ => "[object Response]"
  | Thrown.other s => s

structure WithEventArgs where
  eventType : String
  message : String
  shopDomain : Option String
  merchantId : Option String

/-- `withEventLogging`, shallowly embedded: given the completion `r` of
`args.run` and the elapsed `dur` (`Date.now() - start`), returns the list of
`logEvent` emissions and the value propagated to the caller (the returned
value, or the re-thrown error, unchanged). -/
def withEventLogging (T : Type) (args : WithEventArgs) (r : RunResult T)
    (dur : Nat) : List (Level × String × EventMeta) × RunResult T :=
  match r with
  | RunResult.ok t =>
    ([logEvent args.message
        ⟨args.eventType, "success", args.shopDomain, args.merchantId,
         some dur, none, none, none, none⟩],
     RunResult.ok t)
  | RunResult.thrown e =>
    match e with
    | Thrown.response s =>
      if s ∈ redirectStatuses then
        ([logEvent args.message
            ⟨args.eventType, "success", args.shopDomain, args.merchantId,
             some dur, some s, some true, none, none⟩],
         RunResult.thrown e)
      else
        ([logEvent args.message
            ⟨args.eventType, "failure", args.shopDomain, args.merchantId,
             some dur, none, none, some (errorNameOf e),
             some (errorMessageOf e)⟩],
         RunResult.thrown e)
    | _ =>
      ([logEvent args.message
          ⟨args.eventType, "failure", args.shopDomain, args.merchantId,
           some dur, none, none, some (errorNameOf e),
           some (errorMessageOf e)⟩],
       RunResult.thrown e)

end AstraChat.LoggerSrv

namespace AstraChat.RequestId

/-! ## app/utils/request-id.server.ts -/

open AstraChat

/-- The allowed-id class `[A-Za-z0-9._-]`. -/
def requestIdChar (c : Char) : Bool :=
  isAsciiLetter c || isJsDigit c || c == '.' || c == '_' || c == '-'

/-- `String.prototype.trim` (JS whitespace at both ends). -/
def jsTrimList (l : List Char) : List Char :=
  ((l.dropWhile isJsWs).reverse.dropWhile isJsWs).reverse

/-- `sanitizeInboundRequestId`: `none` both for a `null` header and for the
rejected cases (`undefined` in the source).  `if (!raw)` is true for both
`null` and the empty string. -/
def sanitizeInboundRequestId (raw : Option String) : Option String :=
  match raw with
  | none => none
  | some raw =>
    if raw.toList.isEmpty then none
    else
      let v := jsTrimList raw.toList
      if v.isEmpty then none
      else
        let v :=
          if v.headD ' ' == Char.ofNat 123 && v.getLastD ' ' == Char.ofNat 125 &&
              2 < v.length then
            jsTrimList (v.drop 1).dropLast
          else v
        if 128 < v.length then none
        else if !v.isEmpty && v.all requestIdChar then some (String.mk v)
        else none

/-- `getOrCreateRequestId`: the two header values model the case-insensitive
`Headers.get` of `X-Request-Id` and `X-Correlation-Id`; `fresh` models the
`randomUUID()` result. -/
def getOrCreateRequestId (primary aliasHdr : Option String) (fresh : String) :
    String :=
  match sanitizeInboundRequestId primary with
  | some v => v
  | none =>
    match sanitizeInboundRequestId aliasHdr with
    | some v => v
    | none => fresh

end AstraChat.RequestId

namespace AstraChat

/-! ## General lemmas about the embedded operations -/

theorem lookupJs_insertJs_self (l : List (String × JsonVal)) (k : String)
    (v : JsonVal) : lookupJs k (insertJs l k v) = some v := by
  induction l with
  | nil => simp [insertJs, lookupJs]
  | cons hd tl ih =>
    obtain ⟨k0, v0⟩ := hd
    by_cases h : k0 == k
    · simp [insertJs, lookupJs, h]
    · simp only [insertJs, lookupJs, h, Bool.false_eq_true, if_false]
      exact ih

theorem lookupJs_insertJs_ne (l : List (String × JsonVal)) (k k2 : String)
    (v : JsonVal) (h : k2 ≠ k) :
    lookupJs k (insertJs l k2 v) = lookupJs k l := by
  induction l with
  | nil => simp [insertJs, lookupJs, h]
  | cons hd tl ih =>
    obtain ⟨k0, v0⟩ := hd
    by_cases h0 : k0 == k2
    · have hk0 : k0 = k2 := by simpa using h0
      subst hk0
      simp [insertJs, lookupJs, h]
    · simp only [insertJs, lookupJs, h0, Bool.false_eq_true, if_false]
      by_cases hk : k0 == k
      · simp [lookupJs, hk]
      · simp only [lookupJs, hk, Bool.false_eq_true, if_false]
        exact ih

/-! ## Claim theorems -/

/-- C2: `withEventLogging` emits exactly one event and preserves control flow:
on a returned value, one success event carrying `durationMs` and the value is
returned unchanged; on a thrown `Response` with a 301/302/303/307/308 status,
one success event carrying the status and `redirect: true` and the same
response is re-thrown; on any other thrown error, one failure event with
`errorName`/`errorMessage` derived from the error and the same error is
re-thrown — never zero events, never two. -/
theorem c2_withEventLogging_exactly_one_event (T : Type)
    (args : LoggerSrv.WithEventArgs) (r : LoggerSrv.RunResult T) (dur : Nat) :
    ∃ lv m,
      (LoggerSrv.withEventLogging T args r dur).1 = [(lv, args.message, m)] ∧
      (LoggerSrv.withEventLogging T args r dur).2 = r ∧
      (∀ t, r = LoggerSrv.RunResult.ok t →
        lv = LoggerSrv.Level.info ∧ m.outcome = "success" ∧
        m.durationMs = some dur) ∧
      (∀ s, r = LoggerSrv.RunResult.thrown (LoggerSrv.Thrown.response s) →
        s ∈ LoggerSrv.redirectStatuses →
        lv = LoggerSrv.Level.info ∧ m.outcome = "success" ∧
        m.status = some s ∧ m.redirect = some true) ∧
      (∀ e, r = LoggerSrv.RunResult.thrown e →
        (∀ s, e = LoggerSrv.Thrown.response s →
          s ∉ LoggerSrv.redirectStatuses) →
        lv = LoggerSrv.Level.error ∧ m.outcome = "failure" ∧
        m.errorName = some (LoggerSrv.errorNameOf e) ∧
        m.errorMessage = some (LoggerSrv.errorMessageOf e)) := by
  open LoggerSrv in
  cases r with
  | ok t =>
    refine ⟨Level.info,
      ⟨args.eventType, "success", args.shopDomain, args.merchantId,
       some dur, none, none, none, none⟩, rfl, rfl, ?_, ?_, ?_⟩
    · intro t' _
      exact ⟨rfl, rfl, rfl⟩
    · intro s hs
      cases hs
    · intro e he
      cases he
  | thrown e =>
    cases e with
    | response s =>
      by_cases hs : s ∈ redirectStatuses
      · refine ⟨Level.info,
          ⟨args.eventType, "success", args.shopDomain, args.merchantId,
           some dur, some s, some true, none, none⟩, ?_, ?_, ?_, ?_, ?_⟩
        · simp [withEventLogging, hs, logEvent]
        · simp [withEventLogging, hs]
        · intro t ht
          cases ht
        · intro s' hs' _
          injection hs' with h
          injection h with h2
          subst h2
          exact ⟨rfl, rfl, rfl, rfl⟩
        · intro e' he' hnr
          injection he' with h
          subst h
          exact absurd hs (hnr s rfl)
      · refine ⟨Level.error,
          ⟨args.eventType, "failure", args.shopDomain, args.merchantId,
           some dur, none, none, some "Error", some "[object Response]"⟩,
          ?_, ?_, ?_, ?_, ?_⟩
        · simp [withEventLogging, hs, logEvent, errorNameOf, errorMessageOf]
        · simp [withEventLogging, hs]
        · intro t ht
          cases ht
        · intro s' hs' hmem
          injection hs' with h
          injection h with h2
          subst h2
          exact absurd hmem hs
        · intro e' he' _
          injection he' with h
          subst h
          exact ⟨rfl, rfl, rfl, rfl⟩
    | errObj n msg =>
      refine ⟨Level.error,
        ⟨args.eventType, "failure", args.shopDomain, args.merchantId,
         some dur, none, none, some n, some msg⟩, rfl, rfl, ?_, ?_, ?_⟩
      · intro t ht
        cases ht
      · intro s hs
        injection hs with h
        cases h
      · intro e' he' _
        injection he' with h
        subst h
        exact ⟨rfl, rfl, rfl, rfl⟩
    | other os =>
      refine ⟨Level.error,
        ⟨args.eventType, "failure", args.shopDomain, args.merchantId,
         some dur, none, none, some "Error", some os⟩, rfl, rfl, ?_, ?_, ?_⟩
      · intro t ht
        cases ht
      · intro s hs
        injection hs with h
        cases h
      · intro e' he' _
        injection he' with h
        subst h
        exact ⟨rfl, rfl, rfl, rfl⟩

/-- Witness for C2 at a concrete redirect input. -/
theorem c2_witness :
    ∃ lv m,
      (LoggerSrv.withEventLogging Nat ⟨"oauth_callback", "cb", none, none⟩
        (LoggerSrv.RunResult.thrown (LoggerSrv.Thrown.response 302)) 7).1 =
        [(lv, "cb", m)] ∧
      m.outcome = "success" ∧ m.status = some 302 ∧ m.redirect = some true := by
  obtain ⟨lv, m, h1, -, -, h4, -⟩ :=
    c2_withEventLogging_exactly_one_event Nat ⟨"oauth_callback", "cb", none, none⟩
      (LoggerSrv.RunResult.thrown (LoggerSrv.Thrown.response 302)) 7
  obtain ⟨-, ho, hst, hr⟩ := h4 302 rfl (by decide)
  exact ⟨lv, m, h1, ho, hst, hr⟩

/-- C5 (supporting theorem for the code bug): metadata containing a BigInt
value passes through the sanitizer untouched and makes the `JSON.stringify`
call inside `emit` throw a `TypeError`; `emit` has no recovery boundary, so
the error propagates to the caller instead of degrading to a best-effort
line. -/
theorem c5_emit_propagates_bigint_typeerror :
    LoggerSrv.emitLine "2026-01-01T00:00:00.000Z" (some "rid-1")
      LoggerSrv.Level.info "boot" [("n", JsonVal.bigint 1)] =
    Except.error "TypeError: Do not know how to serialize a BigInt" := rfl

/-- C10: the sanitized metadata is spread after the built-in fields of the
payload, so caller-supplied keys shadow them: `requestId` (allowlisted, so it
survives sanitization) replaces the active correlation id, and `level`,
`severity`, `message` and `timestamp` replace the logger-computed values;
moreover when the caller value differs from the active id the emitted
`requestId` is not the active id. -/
theorem c10_meta_shadows_builtin_fields (r ts : String) :
    lookupJs "requestId"
      (LoggerSrv.emitPayload ts (some r) LoggerSrv.Level.info "hello"
        [("requestId", JsonVal.str "abc-123"), ("level", JsonVal.str "LOUD"),
         ("severity", JsonVal.str "LOUD"), ("message", JsonVal.str "shadowed"),
         ("timestamp", JsonVal.str "t9")]) = some (JsonVal.str "abc-123") ∧
    lookupJs "level"
      (LoggerSrv.emitPayload ts (some r) LoggerSrv.Level.info "hello"
        [("requestId", JsonVal.str "abc-123"), ("level", JsonVal.str "LOUD"),
         ("severity", JsonVal.str "LOUD"), ("message", JsonVal.str "shadowed"),
         ("timestamp", JsonVal.str "t9")]) = some (JsonVal.str "LOUD") ∧
    lookupJs "severity"
      (LoggerSrv.emitPayload ts (some r) LoggerSrv.Level.info "hello"
        [("requestId", JsonVal.str "abc-123"), ("level", JsonVal.str "LOUD"),
         ("severity", JsonVal.str "LOUD"), ("message", JsonVal.str "shadowed"),
         ("timestamp", JsonVal.str "t9")]) = some (JsonVal.str "LOUD") ∧
    lookupJs "message"
      (LoggerSrv.emitPayload ts (some r) LoggerSrv.Level.info "hello"
        [("requestId", JsonVal.str "abc-123"), ("level", JsonVal.str "LOUD"),
         ("severity", JsonVal.str "LOUD"), ("message", JsonVal.str "shadowed"),
         ("timestamp", JsonVal.str "t9")]) = some (JsonVal.str "shadowed") ∧
    lookupJs "timestamp"
      (LoggerSrv.emitPayload ts (some r) LoggerSrv.Level.info "hello"
        [("requestId", JsonVal.str "abc-123"), ("level", JsonVal.str "LOUD"),
         ("severity", JsonVal.str "LOUD"), ("message", JsonVal.str "shadowed"),
         ("timestamp", JsonVal.str "t9")]) = some (JsonVal.str "t9") ∧
    (r ≠ "abc-123" →
      lookupJs "requestId"
        (LoggerSrv.emitPayload ts (some r) LoggerSrv.Level.info "hello"
          [("requestId", JsonVal.str "abc-123"), ("level", JsonVal.str "LOUD"),
           ("severity", JsonVal.str "LOUD"), ("message", JsonVal.str "shadowed"),
           ("timestamp", JsonVal.str "t9")]) ≠ some (JsonVal.str r)) := by
  refine ⟨rfl, rfl, rfl, rfl, rfl, ?_⟩
  intro hne heq
  rw [show lookupJs "requestId"
      (LoggerSrv.emitPayload ts (some r) LoggerSrv.Level.info "hello"
        [("requestId", JsonVal.str "abc-123"), ("level", JsonVal.str "LOUD"),
         ("severity", JsonVal.str "LOUD"), ("message", JsonVal.str "shadowed"),
         ("timestamp", JsonVal.str "t9")]) = some (JsonVal.str "abc-123") from rfl]
    at heq
  have : "abc-123" = r := by
    injection heq with h
    injection h
  exact hne this.symm

/-- Witness for C10: the shadowing conclusion at a concrete active id. -/
theorem c10_witness :
    lookupJs "requestId"
      (LoggerSrv.emitPayload "T0" (some "rid-9") LoggerSrv.Level.info "hello"
        [("requestId", JsonVal.str "abc-123"), ("level", JsonVal.str "LOUD"),
         ("severity", JsonVal.str "LOUD"), ("message", JsonVal.str "shadowed"),
         ("timestamp", JsonVal.str "t9")]) ≠ some (JsonVal.str "rid-9") :=
  (c10_meta_shadows_builtin_fields "rid-9" "T0").2.2.2.2.2 (by decide)

theorem dropWhile_eq_self_of (p : Char → Bool) (l : List Char)
    (h : ∀ c ∈ l, p c = false) : l.dropWhile p = l := by
  cases l with
  | nil => rfl
  | cons x xs => simp [List.dropWhile_cons, h x (by simp)]

theorem jsTrimList_eq_self (l : List Char) (h : ∀ c ∈ l, isJsWs c = false) :
    RequestId.jsTrimList l = l := by
  unfold RequestId.jsTrimList
  rw [dropWhile_eq_self_of _ _ h,
    dropWhile_eq_self_of _ _ (fun c hc => h c (by simpa using hc)),
    List.reverse_reverse]

theorem requestIdChar_not_ws (c : Char)
    (h : RequestId.requestIdChar c = true) : isJsWs c = false := by
  have h6 : (65 ≤ c.toNat ∧ c.toNat ≤ 90) ∨ (97 ≤ c.toNat ∧ c.toNat ≤ 122) ∨
      (48 ≤ c.toNat ∧ c.toNat ≤ 57) ∨ c.toNat = 46 ∨ c.toNat = 95 ∨
      c.toNat = 45 := by
    simp [RequestId.requestIdChar, isAsciiLetter, isJsDigit] at h
    rcases h with ((((h1 | h2) | h3) | h4) | h5) | h6
    · exact Or.inl h1
    · exact Or.inr (Or.inl h2)
    · exact Or.inr (Or.inr (Or.inl h3))
    · subst h4
      exact Or.inr (Or.inr (Or.inr (Or.inl rfl)))
    · subst h5
      exact Or.inr (Or.inr (Or.inr (Or.inr (Or.inl rfl))))
    · subst h6
      exact Or.inr (Or.inr (Or.inr (Or.inr (Or.inr rfl))))
  simp [isJsWs]
  omega

/-- C8: `getOrCreateRequestId` returns the freshly generated id when neither
header is present; returns the sanitized inbound id whenever the primary
header sanitizes successfully; accepts verbatim any inbound id that is
already within the restricted charset and the 128-length cap; and falls back
to the fresh id when the primary header fails sanitization and no alias
header exists. -/
theorem c8_getOrCreateRequestId_spec :
    (∀ fresh, RequestId.getOrCreateRequestId none none fresh = fresh) ∧
    (∀ raw v aliasHdr fresh,
      RequestId.sanitizeInboundRequestId (some raw) = some v →
      RequestId.getOrCreateRequestId (some raw) aliasHdr fresh = v) ∧
    (∀ raw : String, raw.toList ≠ [] →
      raw.toList.all RequestId.requestIdChar = true →
      raw.toList.length ≤ 128 →
      RequestId.sanitizeInboundRequestId (some raw) = some raw) ∧
    (∀ raw fresh, RequestId.sanitizeInboundRequestId (some raw) = none →
      RequestId.getOrCreateRequestId (some raw) none fresh = fresh) := by
  refine ⟨fun fresh => rfl, ?_, ?_, ?_⟩
  · intro raw v aliasHdr fresh h
    simp [RequestId.getOrCreateRequestId, h]
  · intro raw hne hall hlen
    have hall' : ∀ c ∈ raw.toList, RequestId.requestIdChar c = true := by
      simpa [List.all_eq_true] using hall
    have htrim : RequestId.jsTrimList raw.toList = raw.toList :=
      jsTrimList_eq_self _ (fun c hc => requestIdChar_not_ws c (hall' c hc))
    have hhead : (raw.toList.headD ' ' == Char.ofNat 123) = false := by
      cases hl : raw.toList with
      | nil => exact absurd hl hne
      | cons x xs =>
        have hx2 : RequestId.requestIdChar x = true := by
          apply hall' x
          show x ∈ raw.toList
          rw [hl]
          exact List.mem_cons_self x xs
        simp only [List.headD_cons, beq_eq_false_iff_ne, ne_eq]
        intro hxe
        subst hxe
        exact absurd hx2 (by decide)
    have hempty : raw.toList.isEmpty = false := by
      cases hl : raw.toList with
      | nil => exact absurd hl hne
      | cons x xs => rfl
    simp only [RequestId.sanitizeInboundRequestId, hempty, Bool.false_eq_true,
      if_false, htrim, hhead, Bool.false_and, if_false]
    have hcap : ¬ 128 < raw.toList.length := by omega
    simp only [hcap, if_false, hempty, Bool.not_false, hall, Bool.and_self,
      if_true]
    rfl
  · intro raw fresh h
    unfold RequestId.getOrCreateRequestId
    rw [h]
    rfl

/-- Witness for C8 at concrete headers: a clean inbound id is returned
verbatim, a brace-wrapped inbound id is returned unwrapped, and an invalid
inbound id falls back to the fresh id. -/
theorem c8_witness :
    RequestId.sanitizeInboundRequestId (some "req-1.a_b") = some "req-1.a_b" ∧
    RequestId.getOrCreateRequestId
      (some (String.mk ([Char.ofNat 123] ++ "abc".toList ++ [Char.ofNat 125])))
      none "FRESH" = "abc" ∧
    RequestId.getOrCreateRequestId (some "bad id!") none "FRESH" = "FRESH" := by
  refine ⟨?_, ?_, ?_⟩
  · exact c8_getOrCreateRequestId_spec.2.2.1 "req-1.a_b" (by decide) (by decide)
      (by decide)
  · exact c8_getOrCreateRequestId_spec.2.1 _ "abc" none "FRESH" (by decide)
  · exact c8_getOrCreateRequestId_spec.2.2.2 "bad id!" "FRESH" (by decide)

/-! ## C1: sensitive keys under the structural sanitizers -/

theorem redact_allow_not_sensitive (a : String)
    (h : allowKeys.contains a = true) : RedactSrv.sensitiveKeyRe a = false := by
  have h7 : a = "shop" ∨ a = "shopdomain" ∨ a = "shop_domain" ∨
      a = "merchantid" ∨ a = "requestid" ∨ a = "eventtype" ∨
      a = "outcome" := by
    simp [allowKeys, List.contains] at h
    tauto
  rcases h7 with rfl | rfl | rfl | rfl | rfl | rfl | rfl <;> decide

theorem redact_fields_step (sub : JsonVal → JsonVal) (k2 : String)
    (v2 : JsonVal) (tl : List (String × JsonVal)) (count : Nat)
    (acc : List (String × JsonVal)) (hc : ¬ 100 < count + 1) :
    ∃ w, RedactSrv.sanitizeFields sub ((k2, v2) :: tl) count acc =
      RedactSrv.sanitizeFields sub tl (count + 1) (insertJs acc k2 w) := by
  rcases v2 with s | n | b | _ | n | xs | fs <;>
    (rw [RedactSrv.sanitizeFields, if_neg hc]; repeat' split) <;>
    first
    | exact ⟨_, rfl⟩
    | exact fun s h => nomatch h

theorem redact_fields_step_sensitive (sub : JsonVal → JsonVal) (k : String)
    (v : JsonVal) (tl : List (String × JsonVal)) (count : Nat)
    (acc : List (String × JsonVal)) (hc : ¬ 100 < count + 1)
    (hS : RedactSrv.sensitiveKeyRe (jsToLower k) = true)
    (hB : bodyKeyRe (jsToLower k) = false) :
    RedactSrv.sanitizeFields sub ((k, v) :: tl) count acc =
      RedactSrv.sanitizeFields sub tl (count + 1)
        (insertJs acc k (JsonVal.str RedactSrv.REDACTED)) := by
  have hallow : allowKeys.contains (jsToLower k) = false := by
    by_cases h2 : allowKeys.contains (jsToLower k) = true
    · exact absurd hS (by simp [redact_allow_not_sensitive _ h2])
    · simpa using h2
  have herr : (jsToLower k == "errormessage") = false := by
    rw [beq_eq_false_iff_ne]
    intro he
    rw [he] at hS
    exact absurd hS (by decide)
  rcases v with s | n | b | _ | n | xs | fs <;>
    rw [RedactSrv.sanitizeFields, if_neg hc,
      if_neg (by rw [hallow]; simp :
        ¬ allowKeys.contains (jsToLower k) = true),
      if_neg (by rw [herr]; simp),
      if_neg (by rw [hB]; simp : ¬ bodyKeyRe (jsToLower k) = true),
      if_pos hS] <;>
    exact fun s h => nomatch h

theorem redact_fields_preserve (sub : JsonVal → JsonVal) (k : String)
    (hS : RedactSrv.sensitiveKeyRe (jsToLower k) = true)
    (hB : bodyKeyRe (jsToLower k) = false) :
    ∀ (entries : List (String × JsonVal)) (count : Nat)
      (acc : List (String × JsonVal)),
      count + entries.length ≤ 100 →
      lookupJs k acc = some (JsonVal.str RedactSrv.REDACTED) →
      lookupJs k (RedactSrv.sanitizeFields sub entries count acc) =
        some (JsonVal.str RedactSrv.REDACTED) := by
  intro entries
  induction entries with
  | nil =>
    intro count acc _ hacc
    simpa [RedactSrv.sanitizeFields] using hacc
  | cons hd tl ih =>
    obtain ⟨k2, v2⟩ := hd
    intro count acc hlen hacc
    have hc : ¬ 100 < count + 1 := by
      simp only [List.length_cons] at hlen
      omega
    by_cases hk : k2 = k
    · subst hk
      rw [redact_fields_step_sensitive sub k2 v2 tl count acc hc hS hB]
      exact ih (count + 1)
        (insertJs acc k2 (JsonVal.str RedactSrv.REDACTED))
        (by simp only [List.length_cons] at hlen; omega)
        (lookupJs_insertJs_self acc k2 (JsonVal.str RedactSrv.REDACTED))
    · obtain ⟨w, hw⟩ := redact_fields_step sub k2 v2 tl count acc hc
      rw [hw]
      exact ih (count + 1) (insertJs acc k2 w)
        (by simp only [List.length_cons] at hlen; omega)
        (by rw [lookupJs_insertJs_ne acc k k2 w hk]; exact hacc)

theorem redact_fields_mem (sub : JsonVal → JsonVal) (k : String) (v : JsonVal)
    (hS : RedactSrv.sensitiveKeyRe (jsToLower k) = true)
    (hB : bodyKeyRe (jsToLower k) = false) :
    ∀ (entries : List (String × JsonVal)) (count : Nat)
      (acc : List (String × JsonVal)),
      (k, v) ∈ entries →
      count + entries.length ≤ 100 →
      lookupJs k (RedactSrv.sanitizeFields sub entries count acc) =
        some (JsonVal.str RedactSrv.REDACTED) := by
  intro entries
  induction entries with
  | nil =>
    intro count acc hmem _
    cases hmem
  | cons hd tl ih =>
    obtain ⟨k2, v2⟩ := hd
    intro count acc hmem hlen
    have hc : ¬ 100 < count + 1 := by
      simp only [List.length_cons] at hlen
      omega
    by_cases hk : k2 = k
    · subst hk
      rw [redact_fields_step_sensitive sub k2 v2 tl count acc hc hS hB]
      exact redact_fields_preserve sub k2 hS hB tl (count + 1) _
        (by simp only [List.length_cons] at hlen; omega)
        (lookupJs_insertJs_self acc k2 (JsonVal.str RedactSrv.REDACTED))
    · have hmem' : (k, v) ∈ tl := by
        rcases List.mem_cons.mp hmem with heq | hmem'
        · exact absurd (congrArg Prod.fst heq).symm hk
        · exact hmem'
      obtain ⟨w, hw⟩ := redact_fields_step sub k2 v2 tl count acc hc
      rw [hw]
      exact ih (count + 1) (insertJs acc k2 w) hmem'
        (by simp only [List.length_cons] at hlen; omega)

/-- C1 (amended): for the redact module's `redactForLogs`, every entry whose
key matches the sensitive-key pattern (which includes `ssn` and `dob`) and
does not also match the body/payload pattern is mapped to the redaction
marker, for any metadata object of at most 100 entries. -/
theorem c1_sensitive_keys_redacted (entries : List (String × JsonVal))
    (k : String) (v : JsonVal) (hmem : (k, v) ∈ entries)
    (hlen : entries.length ≤ 100)
    (hS : RedactSrv.sensitiveKeyRe (jsToLower k) = true)
    (hB : bodyKeyRe (jsToLower k) = false) :
    ∃ fs, RedactSrv.redactForLogs (JsonVal.obj entries) = JsonVal.obj fs ∧
      lookupJs k fs = some (JsonVal.str RedactSrv.REDACTED) := by
  refine ⟨_, rfl, ?_⟩
  exact redact_fields_mem _ k v hS hB entries 0 [] hmem (by omega)

/-- Witness for C1 (amended) at a concrete `apiKey` entry. -/
theorem c1_witness :
    ∃ fs, RedactSrv.redactForLogs
        (JsonVal.obj [("apiKey", JsonVal.str "k-123")]) = JsonVal.obj fs ∧
      lookupJs "apiKey" fs = some (JsonVal.str RedactSrv.REDACTED) :=
  c1_sensitive_keys_redacted [("apiKey", JsonVal.str "k-123")] "apiKey"
    (JsonVal.str "k-123") (by simp) (by simp) (by decide) (by decide)

/-- C1 (counterexample): the logger's own structural sanitizer — the one
every logger emission uses — does not treat `ssn` as sensitive, so the
emitted payload carries the original value, not the redaction marker. -/
theorem c1_counterexample :
    lookupJs "ssn"
      (LoggerSrv.emitPayload "T0" (some "rid-1") LoggerSrv.Level.info "signup"
        [("ssn", JsonVal.str "123-45-6789")]) =
      some (JsonVal.str "123-45-6789") ∧
    ("123-45-6789" : String) ≠ "[REDACTED]" :=
  ⟨rfl, by decide⟩

/-! ## C4: commerce-platform token prefixes -/

/-- C4 (counterexample): for `token=shpat_123` the earlier key=value
substring scrub fires first and leaves the `token=` fragment visible, so the
result is not the bare redaction marker. -/
theorem c4_counterexample :
    RedactSrv.redactString "token=shpat_123" = "token=[REDACTED]" ∧
    ("token=[REDACTED]" : String) ≠ "[REDACTED]" :=
  ⟨rfl, by decide⟩

/-- C4 (amended): whenever the platform-token prefix is still present after
the substring scrubbing (and the earlier Bearer/JWT branches do not fire),
the value scrubber collapses the whole string to the redaction marker; a
prefix inside a `token=` fragment is instead handled by the substring scrub,
which removes everything from the prefix on. -/
theorem c4_shopify_token_redacted :
    (∀ s, bearerRe (RedactSrv.scrubCommonSubstrings s) = false →
      isLikelyJwtTripleSegment (RedactSrv.scrubCommonSubstrings s) = false →
      shopifyTokenRe (RedactSrv.scrubCommonSubstrings s) = true →
      RedactSrv.redactString s = RedactSrv.REDACTED) ∧
    RedactSrv.redactString "see shpat_12345" = RedactSrv.REDACTED ∧
    RedactSrv.redactString "token=shpat_123" = "token=" ++ RedactSrv.REDACTED := by
  refine ⟨?_, rfl, rfl⟩
  intro s h1 h2 h3
  simp [RedactSrv.redactString, h1, h2, h3]

/-- Witness for C4 (amended) at a concrete prefix-bearing string. -/
theorem c4_witness :
    RedactSrv.redactString "x shpat_99999" = RedactSrv.REDACTED :=
  c4_shopify_token_redacted.1 "x shpat_99999" (by decide) (by decide) (by decide)

/-! ## C6: message-context scrubbing of three-segment dotted strings -/

/-- The precondition of the tie-break: the string splits on '.' into exactly
three parts and the third is 2–10 all-alphabetic characters. -/
def thirdSegIsShortAlpha (s : String) : Bool :=
  (splitOnChar '.' s.toList).length == 3 &&
  shortAlphaRe (((splitOnChar '.' s.toList).get? 2).getD [])

theorem shortAlpha_third_not_likely (s : String)
    (h : thirdSegIsShortAlpha s = true) :
    isLikelyJwtTripleSegment s = false := by
  simp only [thirdSegIsShortAlpha, Bool.and_eq_true, beq_iff_eq] at h
  obtain ⟨h1, h2⟩ := h
  have e : s.toList = s.data := rfl
  rw [e, List.get?_eq_getElem?] at h2
  rw [e] at h1
  have hlt : 2 < (splitOnChar '.' s.data).length := by omega
  rw [List.getElem?_eq_getElem hlt] at h2
  simp only [Option.getD_some] at h2
  by_cases hj : jwtRe s = true
  · simp [isLikelyJwtTripleSegment, hj, h1, h2]
  · have hj' : jwtRe s = false := by simpa using hj
    simp [isLikelyJwtTripleSegment, hj']

/-- C6 (counterexample): the logger's message scrubber checks only the raw
three-segment shape plus the whole-string length threshold, without the
tie-break, so a long domain name ending in a short alphabetic TLD is
redacted rather than returned unchanged. -/
theorem c6_counterexample :
    LoggerSrv.redactLogMessage
      "heard-collectible-undertaken-weather.trycloudflare.com" =
      "[REDACTED]" ∧
    ("[REDACTED]" : String) ≠
      "heard-collectible-undertaken-weather.trycloudflare.com" :=
  ⟨rfl, by decide⟩

/-- C6 (amended): the redact module's message scrubber applies the tie-break,
so any string whose third dot-segment is 2–10 alphabetic characters (and
which the substring scrub leaves unchanged, with no Bearer prefix and no
platform-token prefix) is returned unchanged regardless of its length — the
long domain included; short dotted event names stay readable under both
message scrubbers.  Only the logger's version redacts the long domain (the
counterexample). -/
theorem c6_message_tie_break :
    (∀ s, RedactSrv.scrubCommonSubstrings s = s → bearerRe s = false →
      shopifyTokenRe s = false → thirdSegIsShortAlpha s = true →
      RedactSrv.redactLogMessage s = s) ∧
    RedactSrv.redactLogMessage
      "heard-collectible-undertaken-weather.trycloudflare.com" =
      "heard-collectible-undertaken-weather.trycloudflare.com" ∧
    LoggerSrv.redactLogMessage "embedded.auth.start" = "embedded.auth.start" ∧
    RedactSrv.redactLogMessage "embedded.auth.start" = "embedded.auth.start" := by
  refine ⟨?_, rfl, rfl, rfl⟩
  intro s hscrub hb hsh hthird
  have hlik := shortAlpha_third_not_likely s hthird
  simp [RedactSrv.redactLogMessage, hscrub, hb, hsh, hlik]

/-- Witness for C6 (amended) at a concrete dotted domain. -/
theorem c6_witness : RedactSrv.redactLogMessage "a.b.com" = "a.b.com" :=
  c6_message_tie_break.1 "a.b.com" (by decide) (by decide) (by decide)
    (by decide)

/-! ## C7: email and phone scrubbing in value context -/

/-- C7 (counterexample): the logger's value scrubber has no email or phone
rules, so an email address under an innocuous key survives verbatim into the
emitted payload. -/
theorem c7_counterexample :
    lookupJs "note"
      (LoggerSrv.emitPayload "T0" (some "r1") LoggerSrv.Level.info "contact"
        [("note", JsonVal.str "contact test@example.com")]) =
      some (JsonVal.str "contact test@example.com") ∧
    containsCI "test@example.com" "contact test@example.com" = true :=
  ⟨rfl, by decide⟩

/-- C7 (amended): the redact module's value scrubber replaces embedded email
addresses and phone-shaped digit runs with the redaction marker, while the
logger's value scrubber performs no email/phone scrubbing and returns such
strings unchanged. -/
theorem c7_redact_module_scrubs_pii :
    RedactSrv.redactString "test@example.com +15551234567" =
      "[REDACTED] [REDACTED]" ∧
    RedactSrv.redactString "contact test@example.com" = "contact [REDACTED]" ∧
    LoggerSrv.scrubString "test@example.com +15551234567" =
      "test@example.com +15551234567" ∧
    LoggerSrv.redactTokenishString
      (LoggerSrv.scrubString "contact test@example.com") =
      "contact test@example.com" :=
  ⟨rfl, rfl, rfl, rfl⟩

/-! ## C9: idempotence of Redact-structure -/

/-- C9 (counterexample): `redactForLogs` is not idempotent: on
`a@b.co1234567890` the phone scrub inserts a marker whose closing bracket
creates a word boundary, so the second pass finds an email match that the
first pass could not. -/
theorem c9_counterexample :
    RedactSrv.redactForLogs (JsonVal.str "a@b.co1234567890") =
      JsonVal.str "a@b.co[REDACTED]" ∧
    RedactSrv.redactForLogs (JsonVal.str "a@b.co[REDACTED]") =
      JsonVal.str "[REDACTED][REDACTED]" ∧
    ("a@b.co[REDACTED]" : String) ≠ "[REDACTED][REDACTED]" :=
  ⟨rfl, rfl, by decide⟩

/-- C9 (amended): the redaction, omission and truncation markers are fixed
points of the aggressive string scrubber, and re-redacting an
already-redacted structure built from key-based redaction, body omission, an
allowlisted key and a plain string reproduces it exactly; full idempotence
fails only on strings where a substring scrub exposes a new match (the
counterexample). -/
theorem c9_markers_fixed_points :
    RedactSrv.redactString "[REDACTED]" = "[REDACTED]" ∧
    RedactSrv.redactString "[OMITTED]" = "[OMITTED]" ∧
    RedactSrv.redactString "[Truncated]" = "[Truncated]" ∧
    RedactSrv.redactForLogs (RedactSrv.redactForLogs (JsonVal.obj
      [("accessToken", JsonVal.str "shpat_x"), ("payload", JsonVal.str "zz"),
       ("shop", JsonVal.str "shop1"), ("note", JsonVal.str "ok")])) =
    RedactSrv.redactForLogs (JsonVal.obj
      [("accessToken", JsonVal.str "shpat_x"), ("payload", JsonVal.str "zz"),
       ("shop", JsonVal.str "shop1"), ("note", JsonVal.str "ok")]) := by
  refine ⟨rfl, rfl, rfl, ?_⟩
  rw [show RedactSrv.redactForLogs (JsonVal.obj
      [("accessToken", JsonVal.str "shpat_x"), ("payload", JsonVal.str "zz"),
       ("shop", JsonVal.str "shop1"), ("note", JsonVal.str "ok")]) =
    JsonVal.obj
      [("accessToken", JsonVal.str "[REDACTED]"),
       ("payload", JsonVal.str "[OMITTED]"),
       ("shop", JsonVal.str "shop1"), ("note", JsonVal.str "ok")] from rfl]
  rfl

/-! ## C3: canonical UUIDs in value context

The universal half needs that none of the eight keyword replace patterns can
match inside a UUID: every pattern contains a case-insensitive literal whose
two case variants both lie outside the UUID alphabet (hex digits and the
hyphen), so a successful match is impossible and each global replace is the
identity. -/

/-- The UUID alphabet: hex digits and '-'. -/
def uuidChar (c : Char) : Bool := isHexDigit c || c == '-'

theorem splitOnChar_ne_nil (c : Char) (l : List Char) :
    splitOnChar c l ≠ [] := by
  cases l with
  | nil => simp [splitOnChar]
  | cons x xs =>
    rw [splitOnChar]
    by_cases hx : x == c
    · simp [hx]
    · simp only [hx, Bool.false_eq_true, if_false]
      rcases hr : splitOnChar c xs with _ | ⟨h, t⟩
      · exact absurd hr (splitOnChar_ne_nil c xs)
      · simp

theorem mem_splitOnChar (c : Char) (l : List Char) (x : Char) (hx : x ∈ l) :
    x = c ∨ ∃ p ∈ splitOnChar c l, x ∈ p := by
  induction l with
  | nil => cases hx
  | cons y ys ih =>
    rw [splitOnChar]
    by_cases hy : y == c
    · have hy' : y = c := by simpa using hy
      rcases List.mem_cons.mp hx with rfl | hx'
      · exact Or.inl hy'
      · rcases ih hx' with h | ⟨p, hp, hxp⟩
        · exact Or.inl h
        · exact Or.inr ⟨p, by simp [hy, hp], hxp⟩
    · simp only [hy, Bool.false_eq_true, if_false]
      rcases hr : splitOnChar c ys with _ | ⟨h, t⟩
      · exact absurd hr (splitOnChar_ne_nil c ys)
      · rcases List.mem_cons.mp hx with rfl | hx'
        · exact Or.inr ⟨x :: h, by simp, by simp⟩
        · rcases ih hx' with hxc | ⟨p, hp, hxp⟩
          · exact Or.inl hxc
          · rw [hr] at hp
            rcases List.mem_cons.mp hp with rfl | hp'
            · exact Or.inr ⟨y :: p, by simp, by simp [hxp]⟩
            · exact Or.inr ⟨p, by simp [hp'], hxp⟩

theorem uuid_chars (u : String) (h : uuidRe u = true) :
    ∀ x ∈ u.toList, uuidChar x = true := by
  intro x hx
  rcases mem_splitOnChar '-' u.toList x hx with rfl | ⟨p, hp, hxp⟩
  · decide
  · have hhex : isHexDigit x = true := by
      unfold uuidRe at h
      split at h
      next a b c d e hs =>
        rw [hs] at hp
        simp only [Bool.and_eq_true, List.all_eq_true] at h
        obtain ⟨⟨⟨⟨⟨⟨⟨⟨_, _⟩, _⟩, _⟩, ha⟩, hb⟩, hc⟩, hd⟩, he⟩ := h
        rcases List.mem_cons.mp hp with rfl | hp1
        · exact ha x hxp
        rcases List.mem_cons.mp hp1 with rfl | hp2
        · exact hb x hxp
        rcases List.mem_cons.mp hp2 with rfl | hp3
        · exact hc x hxp
        rcases List.mem_cons.mp hp3 with rfl | hp4
        · exact hd x hxp
        rcases List.mem_cons.mp hp4 with rfl | hp5
        · exact he x hxp
        · cases hp5
      next hs => exact absurd h (by simp)
    simp [uuidChar, hhex]

theorem map_cons_eq_some {o : Option (List Nat)} {n : Nat} {lens : List Nat}
    (h : o.map (n :: ·) = some lens) : ∃ l, o = some l := by
  cases o with
  | none => simp at h
  | some l => exact ⟨l, rfl⟩

theorem bumpHead_eq_some {o : Option (List Nat)} {lens : List Nat}
    (h : bumpHead o = some lens) : ∃ l, o = some l := by
  cases o with
  | none => simp [bumpHead] at h
  | some l =>
    cases l with
    | nil => simp [bumpHead] at h
    | cons n t => exact ⟨n :: t, rfl⟩

/-- If a match succeeds, then for every case-insensitive literal item of the
pattern some character of the input matches it case-insensitively. -/
theorem matchSeq_litCI_mem :
    ∀ (fuel : Nat) (items : List RItem) (s : List Char) (prev : Option Char)
      (lens : List Nat) (c : Char),
      matchSeq fuel items s prev = some lens → RItem.litCI c ∈ items →
      ∃ x ∈ s, ciEq x c = true := by
  intro fuel
  induction fuel with
  | zero =>
    intro items s prev lens c h _
    simp [matchSeq] at h
  | succ f ih =>
    intro items s prev lens c h hmem
    cases items with
    | nil => cases hmem
    | cons item rest =>
      cases item with
      | litCI c2 =>
        cases s with
        | nil => simp [matchSeq] at h
        | cons x xs =>
          rw [matchSeq] at h
          by_cases hci : ciEq x c2 = true
          · rw [if_pos hci] at h
            rcases List.mem_cons.mp hmem with heq | hmem'
            · have hc2 : c = c2 := by injection heq
              subst hc2
              exact ⟨x, by simp, hci⟩
            · obtain ⟨l2, h2⟩ := map_cons_eq_some h
              obtain ⟨y, hy, hyc⟩ := ih rest xs (some x) l2 c h2 hmem'
              exact ⟨y, by simp [hy], hyc⟩
          · rw [if_neg hci] at h
            cases h
      | cls p =>
        cases s with
        | nil => simp [matchSeq] at h
        | cons x xs =>
          rw [matchSeq] at h
          by_cases hp : p x = true
          · rw [if_pos hp] at h
            rcases List.mem_cons.mp hmem with heq | hmem'
            · simp at heq
            · obtain ⟨l2, h2⟩ := map_cons_eq_some h
              obtain ⟨y, hy, hyc⟩ := ih rest xs (some x) l2 c h2 hmem'
              exact ⟨y, by simp [hy], hyc⟩
          · rw [if_neg hp] at h
            cases h
      | opt p =>
        have hmem' : RItem.litCI c ∈ rest := by
          rcases List.mem_cons.mp hmem with heq | hmem'
          · simp at heq
          · exact hmem'
        cases s with
        | nil =>
          rw [matchSeq] at h
          obtain ⟨l2, h2⟩ := map_cons_eq_some h
          exact ih rest [] prev l2 c h2 hmem'
        | cons x xs =>
          rw [matchSeq] at h
          by_cases hp : p x = true
          · rw [if_pos hp] at h
            cases hmm : matchSeq f rest xs (some x) with
            | some l2 =>
              obtain ⟨y, hy, hyc⟩ := ih rest xs (some x) l2 c hmm hmem'
              exact ⟨y, by simp [hy], hyc⟩
            | none =>
              rw [hmm] at h
              obtain ⟨l2, h2⟩ := map_cons_eq_some h
              exact ih rest (x :: xs) prev l2 c h2 hmem'
          · rw [if_neg hp] at h
            obtain ⟨l2, h2⟩ := map_cons_eq_some h
            exact ih rest (x :: xs) prev l2 c h2 hmem'
      | rep m p =>
        have hmem' : RItem.litCI c ∈ rest := by
          rcases List.mem_cons.mp hmem with heq | hmem'
          · simp at heq
          · exact hmem'
        cases m with
        | succ m' =>
          cases s with
          | nil => simp [matchSeq] at h
          | cons x xs =>
            rw [matchSeq] at h
            by_cases hp : p x = true
            · rw [if_pos hp] at h
              obtain ⟨l2, h2⟩ := bumpHead_eq_some h
              obtain ⟨y, hy, hyc⟩ :=
                ih (RItem.rep m' p :: rest) xs (some x) l2 c h2
                  (List.mem_cons_of_mem _ hmem')
              exact ⟨y, by simp [hy], hyc⟩
            · rw [if_neg hp] at h
              cases h
        | zero =>
          cases s with
          | nil =>
            rw [matchSeq] at h
            obtain ⟨l2, h2⟩ := map_cons_eq_some h
            exact ih rest [] prev l2 c h2 hmem'
          | cons x xs =>
            rw [matchSeq] at h
            by_cases hp : p x = true
            · rw [if_pos hp] at h
              cases hmm : bumpHead (matchSeq f (RItem.rep 0 p :: rest) xs (some x)) with
              | some l2 =>
                rw [hmm] at h
                obtain ⟨l3, h3⟩ := bumpHead_eq_some hmm
                obtain ⟨y, hy, hyc⟩ :=
                  ih (RItem.rep 0 p :: rest) xs (some x) l3 c h3
                    (List.mem_cons_of_mem _ hmem')
                exact ⟨y, by simp [hy], hyc⟩
              | none =>
                rw [hmm] at h
                obtain ⟨l2, h2⟩ := map_cons_eq_some h
                exact ih rest (x :: xs) prev l2 c h2 hmem'
            · rw [if_neg hp] at h
              obtain ⟨l2, h2⟩ := map_cons_eq_some h
              exact ih rest (x :: xs) prev l2 c h2 hmem'
      | bnd =>
        have hmem' : RItem.litCI c ∈ rest := by
          rcases List.mem_cons.mp hmem with heq | hmem'
          · simp at heq
          · exact hmem'
        cases s with
        | nil =>
          rw [matchSeq.eq_def] at h
          simp only at h
          split at h
          · exact ih rest [] prev lens c h hmem'
          · cases h
        | cons x xs =>
          rw [matchSeq.eq_def] at h
          simp only at h
          split at h
          · exact ih rest (x :: xs) prev lens c h hmem'
          · cases h

/-- If the pattern matches at no suffix of `s` (for any fuel and any
preceding character), a global replace pass leaves `s` unchanged. -/
theorem scanGo_eq_self (pat : RPat) :
    ∀ (f : Nat) (prev : Option Char) (s : List Char),
      (∀ fuel n prev', matchSeq fuel pat.items (s.drop n) prev' = none) →
      scanGo pat f prev s = s := by
  intro f
  induction f with
  | zero => intro prev s _; rfl
  | succ f ih =>
    intro prev s h
    cases s with
    | nil => rfl
    | cons x xs =>
      rw [scanGo]
      rw [show (x :: xs) = (x :: xs).drop 0 from rfl, h _ 0 prev]
      simp only [List.drop_zero]
      exact congrArg (x :: ·)
        (ih (some x) xs (fun fuel n prev' => h fuel (n + 1) prev'))

theorem replaceAll_eq_self (pat : RPat) (s : List Char)
    (h : ∀ fuel n prev, matchSeq fuel pat.items (s.drop n) prev = none) :
    replaceAll pat s = s :=
  scanGo_eq_self pat (s.length + 1) none s h

/-- A UUID character never matches an ASCII literal whose two case variants
are both outside the UUID alphabet. -/
theorem ciEq_false_of (x c : Char) (hx : uuidChar x = true)
    (h1 : uuidChar c = false) (h2 : uuidChar (asciiUpper c) = false) :
    ciEq x c = false := by
  have e1 : (x == c) = false := by
    rw [beq_eq_false_iff_ne]
    intro he
    subst he
    rw [hx] at h1
    cases h1
  have e2 : (x == asciiUpper c) = false := by
    rw [beq_eq_false_iff_ne]
    intro he
    subst he
    rw [hx] at h2
    cases h2
  simp [ciEq, e1, e2]

/-- If the pattern contains a literal that no character of `s` can match,
the global replace pass is the identity on `s`. -/
theorem replaceAll_id_of_blocked (pat : RPat) (c : Char)
    (hc : RItem.litCI c ∈ pat.items) (s : List Char)
    (hs : ∀ x ∈ s, uuidChar x = true) (h1 : uuidChar c = false)
    (h2 : uuidChar (asciiUpper c) = false) :
    replaceAll pat s = s := by
  apply replaceAll_eq_self
  intro fuel n prev
  cases hm : matchSeq fuel pat.items (s.drop n) prev with
  | none => rfl
  | some lens =>
    exfalso
    obtain ⟨x, hx, hci⟩ := matchSeq_litCI_mem fuel _ _ _ _ c hm hc
    have hxs : x ∈ s := List.drop_subset n s hx
    rw [ciEq_false_of x c (hs x hxs) h1 h2] at hci
    cases hci

/-- A computable membership check for a literal item, so that membership in
the concrete pattern item lists can be settled by `decide`. -/
def hasLitCI (c : Char) (items : List RItem) : Bool :=
  items.any (fun i =>
    match i with
    | RItem.litCI c2 => c2 == c
    | _ => false)

theorem mem_of_hasLitCI (c : Char) (items : List RItem)
    (h : hasLitCI c items = true) : RItem.litCI c ∈ items := by
  induction items with
  | nil => simp [hasLitCI] at h
  | cons i rest ih =>
    rw [hasLitCI, List.any_cons] at h
    rcases Bool.or_eq_true_iff.mp h with hi | hrest
    · cases i with
      | litCI c2 =>
        have : c2 = c := by simpa using hi
        subst this
        exact List.mem_cons_self _ _
      | cls p => simp at hi
      | opt p => simp at hi
      | rep m p => simp at hi
      | bnd => simp at hi
    · exact List.mem_cons_of_mem _ (ih hrest)

/-- Every keyword pattern contains an ASCII literal outside the UUID
alphabet, so all eight keyword replaces are the identity on a string of UUID
characters. -/
theorem scrubKeywordChars_id_of_uuid (l : List Char)
    (hl : ∀ x ∈ l, uuidChar x = true) : scrubKeywordChars l = l := by
  unfold scrubKeywordChars
  rw [replaceAll_id_of_blocked patBearer 'r'
      (mem_of_hasLitCI 'r' patBearer.items (by decide)) l hl (by decide) (by decide),
    replaceAll_id_of_blocked patAuthorization 'u'
      (mem_of_hasLitCI 'u' patAuthorization.items (by decide)) l hl (by decide) (by decide),
    replaceAll_id_of_blocked patToken 't'
      (mem_of_hasLitCI 't' patToken.items (by decide)) l hl (by decide) (by decide),
    replaceAll_id_of_blocked patAccessToken 's'
      (mem_of_hasLitCI 's' patAccessToken.items (by decide)) l hl (by decide) (by decide),
    replaceAll_id_of_blocked patRefreshToken 'r'
      (mem_of_hasLitCI 'r' patRefreshToken.items (by decide)) l hl (by decide) (by decide),
    replaceAll_id_of_blocked patHmac 'h'
      (mem_of_hasLitCI 'h' patHmac.items (by decide)) l hl (by decide) (by decide),
    replaceAll_id_of_blocked patCodeEq 'o'
      (mem_of_hasLitCI 'o' patCodeEq.items (by decide)) l hl (by decide) (by decide),
    replaceAll_id_of_blocked patStateEq 't'
      (mem_of_hasLitCI 't' patStateEq.items (by decide)) l hl (by decide) (by decide)]

theorem loggerScrubString_id_of_uuid (u : String) (h : uuidRe u = true) :
    LoggerSrv.scrubString u = u := by
  unfold LoggerSrv.scrubString
  rw [scrubKeywordChars_id_of_uuid u.toList (uuid_chars u h)]
  rfl

theorem bearerRe_false_of_uuidChars (u : String)
    (h : ∀ x ∈ u.toList, uuidChar x = true) : bearerRe u = false := by
  unfold bearerRe
  rcases hu : u.toList with _ |
      ⟨c1, _ | ⟨c2, _ | ⟨c3, _ | ⟨c4, _ | ⟨c5, _ | ⟨c6, _ | ⟨c7, rest⟩⟩⟩⟩⟩⟩⟩ <;>
    try rfl
  have hc4 : ciEq c4 'r' = false :=
    ciEq_false_of c4 'r' (h c4 (by rw [hu]; simp)) (by decide) (by decide)
  simp [hc4]

theorem splitOnChar_eq_single (c : Char) (l : List Char)
    (h : ∀ x ∈ l, (x == c) = false) : splitOnChar c l = [l] := by
  induction l with
  | nil => rfl
  | cons x xs ih =>
    rw [splitOnChar, h x (by simp)]
    simp only [Bool.false_eq_true, if_false]
    rw [ih (fun y hy => h y (by simp [hy]))]

theorem jwtRe_false_of_uuidChars (u : String)
    (h : ∀ x ∈ u.toList, uuidChar x = true) : jwtRe u = false := by
  unfold jwtRe
  rw [splitOnChar_eq_single '.' u.toList (fun x hx => by
    rw [beq_eq_false_iff_ne]
    intro he
    subst he
    exact absurd (h '.' hx) (by decide))]
  rfl

theorem containsLower_mem (n : List Char) :
    ∀ (l : List Char), containsLower n l = true → ∀ c ∈ n, c ∈ l.map asciiLower := by
  intro l
  induction l with
  | nil =>
    intro h c hc
    rw [containsLower] at h
    have : n = [] := by simpa using h
    subst this
    cases hc
  | cons x xs ih =>
    intro h c hc
    rw [containsLower] at h
    rcases Bool.or_eq_true_iff.mp h with hA | hB
    · exact List.IsPrefix.mem hc (List.isPrefixOf_iff_prefix.mp hA)
    · have := ih hB c hc
      simp only [List.map_cons]
      exact List.mem_cons_of_mem _ this

theorem toNat_ofNat_lt (n : Nat) (h : n < 128) : (Char.ofNat n).toNat = n := by
  unfold Char.ofNat
  split
  · rfl
  · next h2 => exact absurd (Or.inl (by omega)) h2

theorem asciiLower_uuidChar (y : Char) (h : uuidChar y = true) :
    uuidChar (asciiLower y) = true := by
  unfold asciiLower
  split
  · next hrange =>
    have hr : 65 ≤ y.toNat ∧ y.toNat ≤ 90 := by simpa using hrange
    have hy : 65 ≤ y.toNat ∧ y.toNat ≤ 70 := by
      simp only [uuidChar, isHexDigit, Bool.or_eq_true, Bool.and_eq_true,
        decide_eq_true_eq, beq_iff_eq] at h
      rcases h with ((h1 | h1) | h1) | h1
      · omega
      · omega
      · omega
      · subst h1
        exact absurd hr (by decide)
    have ht : (Char.ofNat (y.toNat + 32)).toNat = y.toNat + 32 :=
      toNat_ofNat_lt _ (by omega)
    simp only [uuidChar, isHexDigit, ht, Bool.or_eq_true, Bool.and_eq_true,
      decide_eq_true_eq, beq_iff_eq]
    omega
  · exact h

theorem shopifyTokenRe_false_of_uuidChars (u : String)
    (h : ∀ x ∈ u.toList, uuidChar x = true) : shopifyTokenRe u = false := by
  have hno : ∀ needle : List Char, 'h' ∈ needle →
      containsLower needle u.toList = false := by
    intro needle hh
    by_cases hcl : containsLower needle u.toList = true
    · exfalso
      obtain ⟨y, hy, hya⟩ :=
        List.mem_map.mp (containsLower_mem needle u.toList hcl 'h' hh)
      have h1 := asciiLower_uuidChar y (h y hy)
      rw [hya] at h1
      exact absurd h1 (by decide)
    · simpa using hcl
  unfold shopifyTokenRe containsCI
  rw [hno "shpat_".toList (by decide), hno "shpua_".toList (by decide),
    hno "shpca_".toList (by decide), hno "shpss_".toList (by decide),
    hno "shppa_".toList (by decide)]
  rfl

theorem redactTokenish_id_of_uuid (u : String) (h : uuidRe u = true) :
    LoggerSrv.redactTokenishString u = u := by
  have hch := uuid_chars u h
  have hb := bearerRe_false_of_uuidChars u hch
  have hjw := jwtRe_false_of_uuidChars u hch
  have hlik : isLikelyJwtTripleSegment u = false := by
    simp [isLikelyJwtTripleSegment, hjw]
  have hsh := shopifyTokenRe_false_of_uuidChars u hch
  simp [LoggerSrv.redactTokenishString, hb, hlik, hsh, h]

/-- C3 (counterexample): an all-digit canonical UUID is a phone-shaped digit
run, so the redact module's aggressive value scrubber (the variant with the
email/phone rules) redacts it rather than returning it unchanged. -/
theorem c3_counterexample :
    uuidRe "11111111-1111-1111-1111-111111111111" = true ∧
    RedactSrv.redactString "11111111-1111-1111-1111-111111111111" =
      "[REDACTED]" ∧
    ("[REDACTED]" : String) ≠ "11111111-1111-1111-1111-111111111111" :=
  ⟨by decide, rfl, by decide⟩

/-- C3 (amended): the logger's value scrubber returns every canonical UUID
unchanged, and consequently emitting `{webhookId: u}` produces a payload
carrying the literal UUID; the redact module's value scrubber additionally
scrubs phone-shaped digit runs, which can redact digit-heavy UUIDs (the
counterexample), though the spec's example UUID passes it unchanged. -/
theorem c3_uuid_unchanged :
    (∀ u, uuidRe u = true →
      LoggerSrv.redactTokenishString (LoggerSrv.scrubString u) = u) ∧
    (∀ u ts rid, uuidRe u = true →
      lookupJs "webhookId"
        (LoggerSrv.emitPayload ts rid LoggerSrv.Level.info "webhook"
          [("webhookId", JsonVal.str u)]) = some (JsonVal.str u)) ∧
    RedactSrv.redactString "2feb21ca-d583-4d96-888c-e0af91f64305" =
      "2feb21ca-d583-4d96-888c-e0af91f64305" := by
  have hv : ∀ u, uuidRe u = true →
      LoggerSrv.redactTokenishString (LoggerSrv.scrubString u) = u := by
    intro u h
    rw [loggerScrubString_id_of_uuid u h]
    exact redactTokenish_id_of_uuid u h
  refine ⟨hv, ?_, rfl⟩
  intro u ts rid h
  have hval := hv u h
  have hmeta2 : LoggerSrv.sanitizeMeta 16 0
      (JsonVal.obj [("webhookId", JsonVal.str u)]) =
      JsonVal.obj [("webhookId", JsonVal.str u)] := by
    rw [show LoggerSrv.sanitizeMeta 16 0
        (JsonVal.obj [("webhookId", JsonVal.str u)]) =
      JsonVal.obj [("webhookId", JsonVal.str
        (LoggerSrv.redactTokenishString (LoggerSrv.scrubString
          (LoggerSrv.redactTokenishString (LoggerSrv.scrubString u)))))]
      from rfl, hval, hval]
  unfold LoggerSrv.emitPayload
  rw [hmeta2]
  rfl

/-- Witness for C3 (amended) at the spec's example UUID. -/
theorem c3_witness :
    LoggerSrv.redactTokenishString
      (LoggerSrv.scrubString "2feb21ca-d583-4d96-888c-e0af91f64305") =
      "2feb21ca-d583-4d96-888c-e0af91f64305" ∧
    lookupJs "webhookId"
      (LoggerSrv.emitPayload "T0" (some "r") LoggerSrv.Level.info "webhook"
        [("webhookId",
          JsonVal.str "2feb21ca-d583-4d96-888c-e0af91f64305")]) =
      some (JsonVal.str "2feb21ca-d583-4d96-888c-e0af91f64305") :=
  ⟨c3_uuid_unchanged.1 _ (by decide),
   c3_uuid_unchanged.2.1 _ "T0" (some "r") (by decide)⟩

end AstraChat
